import Mathlib

/-!
Shallow embedding of `src/main.rs` of the solana-token-account-burn-close
tool, and proofs about its scanner, batcher and submitter pipeline.

Modelling conventions:
* Pubkeys and mints are represented by their base58 `String` rendering
  (the source compares `token_account_data.mint.to_string() == USDC_MINT`).
* `u64`/`u32`/`usize` values carry no overflowing arithmetic in the source,
  so they are represented as `Nat`.
* The RPC client is an environment of oracles indexed by the batch number
  (the source performs exactly one blockhash fetch, one simulation and one
  send-and-confirm per batch, strictly in batch order).
* `anyhow` errors are `Except String`; the `.context`/`anyhow!` message is
  kept as the error payload.
* The `while` loop of `burn_and_close_all_tokens` is embedded with an
  explicit fuel parameter; a result of `none` means the loop performed more
  iterations than the supplied fuel (in particular, it can never terminate
  within any fuel, which models divergence).
-/

/-- The USDC mint address constant (`src/main.rs`, line 48). -/
def USDC_MINT : String := "EPjFWdd5AufqSSqeM2qN1xzybapC8G4wEGGkZwyTDt1v"

/-- The fields of the decoded SPL token account (`spl_token::state::Account`)
that the program reads: the mint (as its base58 string) and the u64 balance. -/
structure TokenAccountData where
  mint : String
  amount : Nat
deriving DecidableEq, Repr

/-- The instructions the program builds: SPL `burn` and `close_account`
(lines 140-160) and the two compute-budget instructions (lines 215-220).
Each constructor records exactly the arguments the source passes. -/
inductive Instr where
  | burn (account mint authority : String) (amount : Nat)
  | closeAccount (account destination authority : String)
  | setComputeUnitPrice (microLamports : Nat)
  | setComputeUnitLimit (units : Nat)
deriving DecidableEq, Repr

/-- The instructions pushed for one surviving account (lines 134-163):
a burn of the full balance with the owner as authority when `amount > 0`,
then always a close with the owner as rent destination and authority. -/
def accountInstructions (owner pubkey : String) (d : TokenAccountData) : List Instr :=
  (if d.amount > 0 then [Instr.burn pubkey d.mint owner d.amount] else []) ++
    [Instr.closeAccount pubkey owner owner]

/-- The scan loop of `burn_and_close_all_tokens` (lines 120-164): walk the
fetched `(pubkey, decode result)` pairs in order, fail the whole scan on a
decode failure, skip USDC accounts when `skip_usdc`, and otherwise append
the account's instructions to the accumulator, counting processed accounts.
The `Option TokenAccountData` is the outcome of `TokenAccount::unpack`. -/
def scanLoop (owner : String) (skip_usdc : Bool) :
    List (String × Option TokenAccountData) → List Instr → Nat →
    Except String (List Instr × Nat)
  | [], instructions, accounts_processed => Except.ok (instructions, accounts_processed)
  | (pubkey, dataOpt) :: rest, instructions, accounts_processed =>
    match dataOpt with
    | none => Except.error "Failed to unpack token account data"
    | some d =>
      if skip_usdc && (d.mint == USDC_MINT) then
        scanLoop owner skip_usdc rest instructions accounts_processed
      else
        scanLoop owner skip_usdc rest
          (instructions ++ accountInstructions owner pubkey d)
          (accounts_processed + 1)

/-- The `end_index` computation of the batching loop (lines 176-179):
`min(processed_instructions + max_instructions, instructions.len())`. -/
def end_index (processed_instructions max_instructions len : Nat) : Nat :=
  min (processed_instructions + max_instructions) len

/-- The Rust slice `l[a..b]`, as a list (the elements at positions
`a, ..., b-1`). -/
def listSlice (l : List α) (a b : Nat) : List α :=
  (l.drop a).take (b - a)

/-- The batching `while` loop (lines 174-200), abstracted from submission:
collects the successive batch slices. `fuel` bounds the number of
iterations; `none` means the loop did not finish within `fuel` iterations. -/
def batchLoop (l : List α) (max_instructions : Nat) :
    Nat → Nat → Option (List (List α))
  | fuel, p =>
    if p < l.length then
      match fuel with
      | 0 => none
      | f + 1 =>
        (batchLoop l max_instructions f (end_index p max_instructions l.length)).map
          (fun bs => listSlice l p (end_index p max_instructions l.length) :: bs)
    else some []

/-- The batch decomposition computed by the batching loop, started at
`processed_instructions = 0`, with fuel `l.length` (for
`max_instructions ≥ 1` every iteration advances by at least one
instruction, so this fuel is never exhausted). -/
def batches (l : List α) (max_instructions : Nat) : Option (List (List α)) :=
  batchLoop l max_instructions l.length 0

/-- A transaction as assembled by `process_instruction_batch`
(lines 212-235): the full instruction list, the fee payer passed to
`Transaction::new_with_payer`, and the blockhash it is signed against. -/
structure BuiltTransaction where
  instructions : List Instr
  feePayer : String
  recentBlockhash : Nat
deriving DecidableEq, Repr

/-- Lines 212-235: push the compute-unit-price and compute-unit-limit
instructions, extend with the batch, set the operator as fee payer, sign
against the fetched blockhash. -/
def buildTransaction (owner : String) (batch : List Instr)
    (compute_unit_price compute_unit_limit blockhash : Nat) : BuiltTransaction :=
  { instructions :=
      Instr.setComputeUnitPrice compute_unit_price ::
        Instr.setComputeUnitLimit compute_unit_limit :: batch
    feePayer := owner
    recentBlockhash := blockhash }

/-- `process_instruction_batch` (lines 205-266), given the outcomes of the
three RPC calls it performs, in source order: `get_latest_blockhash`,
`simulate_transaction` (outer `Except` = the call itself, inner
`Option String` = a reported on-chain error), `send_and_confirm_transaction`.
Returns the transaction it built (when the blockhash fetch succeeded) and
the function's `Result`. A reported on-chain simulation error returns early
(line 242); a failed simulation call is only logged (line 247) and the
submission still happens. -/
def process_instruction_batch (owner : String) (batch : List Instr)
    (compute_unit_price compute_unit_limit : Nat)
    (blockhashRes : Except String Nat)
    (simulateRes : Except String (Option String))
    (sendRes : Except String String) :
    Option BuiltTransaction × Except String String :=
  match blockhashRes with
  | Except.error _ => (none, Except.error "Failed to get recent blockhash")
  | Except.ok bh =>
    let transaction := buildTransaction owner batch compute_unit_price compute_unit_limit bh
    match simulateRes with
    | Except.ok (some e) =>
        (some transaction, Except.error ("Transaction simulation failed: " ++ e))
    | Except.ok none =>
        match sendRes with
        | Except.error _ =>
            (some transaction, Except.error "Failed to send and confirm transaction")
        | Except.ok signature => (some transaction, Except.ok signature)
    | Except.error _ =>
        match sendRes with
        | Except.error _ =>
            (some transaction, Except.error "Failed to send and confirm transaction")
        | Except.ok signature => (some transaction, Except.ok signature)

/-- The RPC oracles consumed by the batch loop, indexed by batch number:
batch `i` performs the `i`-th blockhash fetch, simulation and send. -/
structure RpcEnv where
  getLatestBlockhash : Nat → Except String Nat
  simulateTransaction : Nat → Except String (Option String)
  sendAndConfirm : Nat → Except String String

/-- The `Result` of processing batch number `i` holding instructions `b`,
under environment `env` (second component of `process_instruction_batch`). -/
def batchOutcome (env : RpcEnv) (owner : String)
    (compute_unit_price compute_unit_limit i : Nat) (b : List Instr) :
    Except String String :=
  (process_instruction_batch owner b compute_unit_price compute_unit_limit
    (env.getLatestBlockhash i) (env.simulateTransaction i) (env.sendAndConfirm i)).2

/-- The batching-and-submission `while` loop (lines 174-200): process each
slice with `process_instruction_batch`, advancing the batch index `i`, and
stop at the first failing batch (the `?` on line 197 propagates the error).
Returns the run outcome together with the trace of
(batch index, built transaction) pairs, in order; `none` models fuel
exhaustion (more iterations than `fuel`). -/
def runLoop (env : RpcEnv) (owner : String) (l : List Instr)
    (max_instructions compute_unit_price compute_unit_limit : Nat) :
    Nat → Nat → Nat → Option (Except String Unit × List (Nat × BuiltTransaction))
  | fuel, p, i =>
    if p < l.length then
      match fuel with
      | 0 => none
      | f + 1 =>
        match process_instruction_batch owner
            (listSlice l p (end_index p max_instructions l.length))
            compute_unit_price compute_unit_limit
            (env.getLatestBlockhash i) (env.simulateTransaction i)
            (env.sendAndConfirm i) with
        | (txOpt, Except.error msg) =>
            some (Except.error msg, (txOpt.map (fun t => (i, t))).toList)
        | (txOpt, Except.ok _) =>
            (runLoop env owner l max_instructions compute_unit_price
                compute_unit_limit f (end_index p max_instructions l.length) (i + 1)).map
              (fun r => (r.1, (txOpt.map (fun t => (i, t))).toList ++ r.2))
    else some (Except.ok (), [])

/-- `burn_and_close_all_tokens` (lines 93-203): given the outcome of
`get_token_accounts_by_owner`, return early on an empty account list
(line 113), run the scan loop, return early on an empty instruction list
(line 166), then run the batching loop. The result pairs the function's
`Result` with the trace of built transactions; `none` models divergence of
the batching loop (only possible when `max_instructions = 0`). -/
def burn_and_close_all_tokens (env : RpcEnv) (owner : String) (skip_usdc : Bool)
    (max_instructions compute_unit_price compute_unit_limit : Nat)
    (fetchRes : Except String (List (String × Option TokenAccountData))) :
    Option (Except String Unit × List (Nat × BuiltTransaction)) :=
  match fetchRes with
  | Except.error _ => some (Except.error "Failed to fetch token accounts", [])
  | Except.ok token_accounts =>
    if token_accounts.isEmpty then some (Except.ok (), [])
    else
      match scanLoop owner skip_usdc token_accounts [] 0 with
      | Except.error e => some (Except.error e, [])
      | Except.ok (instructions, _) =>
        if instructions.isEmpty then some (Except.ok (), [])
        else
          runLoop env owner instructions max_instructions compute_unit_price
            compute_unit_limit instructions.length 0 0

/-- `main` (lines 51-82): the `Result` of `burn_and_close_all_tokens` is
propagated by `?`; an `anyhow` main exits 0 on `Ok` and non-zero on `Err`. -/
def exitCode (r : Except String Unit) : Nat :=
  match r with
  | Except.ok _ => 0
  | Except.error _ => 1

/-- Structural chunking into pieces of size `m + 1`: the reference
decomposition the batching loop is proved to compute for a positive
`max_instructions = m + 1`. -/
def chunksPos (m : Nat) : List α → List (List α)
  | [] => []
  | a :: l => (a :: l.take m) :: chunksPos m (l.drop m)
termination_by l => l.length
decreasing_by simp [Nat.lt_succ_iff]

lemma chunksPos_nil (m : Nat) : chunksPos m ([] : List α) = [] := by
  rw [chunksPos]

lemma chunksPos_cons (m : Nat) (a : α) (l : List α) :
    chunksPos m (a :: l) = (a :: l.take m) :: chunksPos m (l.drop m) := by
  rw [chunksPos]

lemma chunksPos_eq_of_ne_nil (m : Nat) (l : List α) (h : l ≠ []) :
    chunksPos m l = l.take (m + 1) :: chunksPos m (l.drop (m + 1)) := by
  cases l with
  | nil => exact absurd rfl h
  | cons a t => rw [chunksPos_cons, List.take_succ_cons, List.drop_succ_cons]

lemma chunksPos_flatten (m : Nat) (l : List α) : (chunksPos m l).flatten = l := by
  induction l using chunksPos.induct m with
  | case1 => rw [chunksPos_nil]; rfl
  | case2 a l ih =>
    rw [chunksPos_cons, List.flatten_cons, ih]
    simp [List.take_append_drop]

lemma chunksPos_length (m : Nat) (l : List α) :
    (chunksPos m l).length = (l.length + m) / (m + 1) := by
  induction l using chunksPos.induct m with
  | case1 =>
    rw [chunksPos_nil]
    simp [Nat.div_eq_of_lt (by omega : m < m + 1)]
  | case2 a l ih =>
    rw [chunksPos_cons]
    simp only [List.length_cons, ih, List.length_drop]
    rcases Nat.le_total m l.length with h | h
    · rw [Nat.sub_add_cancel h]
      have h2 : l.length + 1 + m = l.length + (m + 1) := by omega
      rw [h2, Nat.add_div_right _ (Nat.succ_pos m)]
    · rw [Nat.sub_eq_zero_of_le h]
      have h1 : (0 + m) / (m + 1) = 0 := Nat.div_eq_of_lt (by omega)
      have h2 : (l.length + 1 + m) / (m + 1) = 1 :=
        Nat.div_eq_of_lt_le (by omega) (by omega)
      omega

lemma chunksPos_mem (m : Nat) (l : List α) :
    ∀ b ∈ chunksPos m l, 1 ≤ b.length ∧ b.length ≤ m + 1 := by
  induction l using chunksPos.induct m with
  | case1 => rw [chunksPos_nil]; intro b hb; cases hb
  | case2 a l ih =>
    rw [chunksPos_cons]
    intro b hb
    rcases List.mem_cons.mp hb with h | h
    · subst h
      simp only [List.length_cons, List.length_take]
      omega
    · exact ih b h

lemma batchLoop_stop (l : List α) (M fuel p : Nat) (h : ¬ p < l.length) :
    batchLoop l M fuel p = some [] := by
  rw [batchLoop.eq_def]
  simp [h]

lemma batchLoop_step (l : List α) (M f p : Nat) (h : p < l.length) :
    batchLoop l M (f + 1) p =
      (batchLoop l M f (end_index p M l.length)).map
        (fun bs => listSlice l p (end_index p M l.length) :: bs) := by
  rw [batchLoop.eq_def]
  simp [h]

lemma batchLoop_fuel_out (l : List α) (M p : Nat) (h : p < l.length) :
    batchLoop l M 0 p = none := by
  rw [batchLoop.eq_def]
  simp [h]

lemma listSlice_end_index (l : List α) (p m : Nat) (hp : p ≤ l.length) :
    listSlice l p (end_index p (m + 1) l.length) = (l.drop p).take (m + 1) := by
  unfold listSlice end_index
  rw [List.take_eq_take]
  simp only [List.length_drop]
  omega

lemma drop_end_index (l : List α) (p m : Nat) :
    l.drop (end_index p (m + 1) l.length) = (l.drop p).drop (m + 1) := by
  rw [List.drop_drop]
  unfold end_index
  rcases Nat.le_total (p + (m + 1)) l.length with h | h
  · rw [min_eq_left h]
  · rw [min_eq_right h, List.drop_length, List.drop_eq_nil_of_le (by omega)]

lemma batchLoop_eq_chunksPos (m : Nat) (l : List α) :
    ∀ fuel p, p ≤ l.length → l.length - p ≤ fuel →
      batchLoop l (m + 1) fuel p = some (chunksPos m (l.drop p)) := by
  intro fuel
  induction fuel with
  | zero =>
    intro p hp hf
    have hpe : p = l.length := by omega
    rw [batchLoop_stop l _ _ p (by omega), hpe, List.drop_length, chunksPos_nil]
  | succ f ih =>
    intro p hp hf
    by_cases h : p < l.length
    · have he1 : p < end_index p (m + 1) l.length := by unfold end_index; omega
      have he2 : end_index p (m + 1) l.length ≤ l.length := by unfold end_index; omega
      rw [batchLoop_step l _ f p h,
        ih (end_index p (m + 1) l.length) he2 (by omega),
        Option.map_some']
      have hne : l.drop p ≠ [] :=
        List.ne_nil_of_length_pos (by rw [List.length_drop]; omega)
      rw [listSlice_end_index l p m hp, drop_end_index,
        chunksPos_eq_of_ne_nil m (l.drop p) hne]
    · rw [batchLoop_stop l _ _ p h]
      have hpe : p = l.length := by omega
      rw [hpe, List.drop_length, chunksPos_nil]

/-- C1: for every instruction list of length L and every max_instructions
M ≥ 1, the batching loop terminates and partitions the list into exactly
⌈L/M⌉ = (L + M - 1) / M contiguous batches, each of size at least 1 and at
most M, whose concatenation in order equals the input list exactly. -/
theorem batching_partitions (l : List Instr) (M : Nat) (hM : 1 ≤ M) :
    ∃ bs, batches l M = some bs ∧
      bs.length = (l.length + M - 1) / M ∧
      (∀ b ∈ bs, 1 ≤ b.length ∧ b.length ≤ M) ∧
      bs.flatten = l := by
  obtain ⟨m, rfl⟩ : ∃ m, M = m + 1 := ⟨M - 1, by omega⟩
  refine ⟨chunksPos m l, ?_, ?_, ?_, ?_⟩
  · unfold batches
    rw [batchLoop_eq_chunksPos m l l.length 0 (Nat.zero_le _) (by omega),
      List.drop_zero]
  · rw [chunksPos_length]
    congr 1
  · exact chunksPos_mem m l
  · exact chunksPos_flatten m l

/-- Witness for C1: a concrete three-instruction list with M = 2. -/
theorem batching_partitions_witness :
    ∃ bs,
      batches [Instr.closeAccount "A" "W" "W", Instr.burn "B" "M1" "W" 5,
        Instr.closeAccount "B" "W" "W"] 2 = some bs ∧
      bs.length = (([Instr.closeAccount "A" "W" "W", Instr.burn "B" "M1" "W" 5,
        Instr.closeAccount "B" "W" "W"] : List Instr).length + 2 - 1) / 2 ∧
      (∀ b ∈ bs, 1 ≤ b.length ∧ b.length ≤ 2) ∧
      bs.flatten = [Instr.closeAccount "A" "W" "W", Instr.burn "B" "M1" "W" 5,
        Instr.closeAccount "B" "W" "W"] :=
  batching_partitions _ 2 (by omega)

/-- C9: whenever processed_instructions ≤ instructions.len() (which holds in
every iteration: it holds at 0, and the next index is end_index itself,
bounded by the second conjunct), the slice bounds satisfy
processed_instructions ≤ end_index ≤ instructions.len(), for every value of
max_instructions including 0, and the batch slice consists of exactly the
end_index - processed_instructions in-bounds elements — the indexing never
goes out of bounds. -/
theorem end_index_in_bounds (l : List Instr) (p M : Nat) (h : p ≤ l.length) :
    p ≤ end_index p M l.length ∧ end_index p M l.length ≤ l.length ∧
      (listSlice l p (end_index p M l.length)).length =
        end_index p M l.length - p := by
  unfold end_index listSlice
  refine ⟨by omega, by omega, ?_⟩
  rw [List.length_take, List.length_drop]
  omega

/-- Witness for C9: a one-element list, p = 1, max_instructions = 0. -/
theorem end_index_in_bounds_witness :
    1 ≤ end_index 1 0 ([Instr.setComputeUnitPrice 3] : List Instr).length ∧
      end_index 1 0 ([Instr.setComputeUnitPrice 3] : List Instr).length ≤
        ([Instr.setComputeUnitPrice 3] : List Instr).length ∧
      (listSlice [Instr.setComputeUnitPrice 3] 1
          (end_index 1 0 ([Instr.setComputeUnitPrice 3] : List Instr).length)).length =
        end_index 1 0 ([Instr.setComputeUnitPrice 3] : List Instr).length - 1 :=
  end_index_in_bounds [Instr.setComputeUnitPrice 3] 1 0 (by decide)

/-- C5 (code evidence): the program performs no validation of
max_instructions anywhere, and with max_instructions = 0 and a non-empty
instruction list the batching loop makes no progress: end_index equals
processed_instructions, the batch slice is empty, and the loop fails to
terminate within any fuel (it diverges instead of rejecting the
configuration with an error). -/
theorem max_instructions_zero_no_progress (l : List Instr) (h : l ≠ []) :
    batches l 0 = none ∧
      (∀ fuel p, p < l.length → batchLoop l 0 fuel p = none) ∧
      (∀ p, p ≤ l.length → end_index p 0 l.length = p ∧
        listSlice l p (end_index p 0 l.length) = []) := by
  have hlen : 0 < l.length := List.length_pos.mpr h
  have key : ∀ fuel p, p < l.length → batchLoop l 0 fuel p = none := by
    intro fuel
    induction fuel with
    | zero => intro p hp; exact batchLoop_fuel_out l 0 p hp
    | succ f ih =>
      intro p hp
      rw [batchLoop_step l 0 f p hp]
      have he : end_index p 0 l.length = p := by unfold end_index; omega
      rw [he, ih p hp]
      rfl
  refine ⟨by unfold batches; exact key l.length 0 hlen, key, ?_⟩
  intro p hp
  have he : end_index p 0 l.length = p := by unfold end_index; omega
  refine ⟨he, ?_⟩
  rw [he]
  unfold listSlice
  simp

/-- Witness for C5's evidence theorem: a concrete one-element list. -/
theorem max_instructions_zero_no_progress_witness :
    batches [Instr.setComputeUnitPrice 7] 0 = none ∧
      (∀ fuel p, p < ([Instr.setComputeUnitPrice 7] : List Instr).length →
        batchLoop [Instr.setComputeUnitPrice 7] 0 fuel p = none) ∧
      (∀ p, p ≤ ([Instr.setComputeUnitPrice 7] : List Instr).length →
        end_index p 0 ([Instr.setComputeUnitPrice 7] : List Instr).length = p ∧
        listSlice [Instr.setComputeUnitPrice 7] p
          (end_index p 0 ([Instr.setComputeUnitPrice 7] : List Instr).length) = []) :=
  max_instructions_zero_no_progress [Instr.setComputeUnitPrice 7] (by simp)

/-- C2: for every scanned record that survives filtering, the scan loop
appends exactly that account's instructions and moves on; with balance 0
that contribution is exactly one close instruction with the owner as rent
destination, and with balance > 0 it is exactly a burn of the full balance
with the owner as authority immediately followed by that close. -/
theorem scan_emission_per_account (owner pubkey : String) (skip_usdc : Bool)
    (d : TokenAccountData) (rest : List (String × Option TokenAccountData))
    (instructions : List Instr) (n : Nat)
    (hsurvive : ¬(skip_usdc = true ∧ d.mint = USDC_MINT)) :
    scanLoop owner skip_usdc ((pubkey, some d) :: rest) instructions n =
      scanLoop owner skip_usdc rest
        (instructions ++ accountInstructions owner pubkey d) (n + 1) ∧
    (d.amount = 0 →
      accountInstructions owner pubkey d =
        [Instr.closeAccount pubkey owner owner]) ∧
    (0 < d.amount →
      accountInstructions owner pubkey d =
        [Instr.burn pubkey d.mint owner d.amount,
          Instr.closeAccount pubkey owner owner]) := by
  have hcond : (skip_usdc && (d.mint == USDC_MINT)) = false := by
    cases skip_usdc with
    | false => rfl
    | true =>
      simp only [Bool.true_and]
      exact beq_eq_false_iff_ne.mpr (fun hc => hsurvive ⟨rfl, hc⟩)
  refine ⟨?_, ?_, ?_⟩
  · simp only [scanLoop, hcond, Bool.false_eq_true, if_false]
  · intro h0
    unfold accountInstructions
    simp [h0]
  · intro h0
    unfold accountInstructions
    simp [h0]

/-- Witness for C2: a non-USDC account with balance 5, skip_usdc on. -/
theorem scan_emission_per_account_witness :
    scanLoop "W" true [("A", some ⟨"M1", 5⟩)] [] 0 =
      scanLoop "W" true [] ([] ++ accountInstructions "W" "A" ⟨"M1", 5⟩) (0 + 1) ∧
    ((⟨"M1", 5⟩ : TokenAccountData).amount = 0 →
      accountInstructions "W" "A" ⟨"M1", 5⟩ = [Instr.closeAccount "A" "W" "W"]) ∧
    (0 < (⟨"M1", 5⟩ : TokenAccountData).amount →
      accountInstructions "W" "A" ⟨"M1", 5⟩ =
        [Instr.burn "A" "M1" "W" 5, Instr.closeAccount "A" "W" "W"]) :=
  scan_emission_per_account "W" "A" true ⟨"M1", 5⟩ [] [] 0 (by decide)

/-- C6: with skip_usdc = true, an account whose mint equals USDC_MINT is
skipped entirely by the scan loop: no burn and no close is appended for it,
whatever its balance. -/
theorem skip_usdc_zero_contribution (owner pubkey : String)
    (d : TokenAccountData) (rest : List (String × Option TokenAccountData))
    (instructions : List Instr) (n : Nat) (hmint : d.mint = USDC_MINT) :
    scanLoop owner true ((pubkey, some d) :: rest) instructions n =
      scanLoop owner true rest instructions n := by
  simp only [scanLoop, hmint, Bool.true_and, beq_self_eq_true, if_true]

/-- Witness for C6: a USDC account with a positive balance. -/
theorem skip_usdc_zero_contribution_witness :
    scanLoop "W" true [("A", some ⟨USDC_MINT, 9⟩)] [] 0 =
      scanLoop "W" true [] [] 0 :=
  skip_usdc_zero_contribution "W" "A" ⟨USDC_MINT, 9⟩ [] [] 0 rfl

/-- C7: if any fetched account fails to decode, the whole scan fails with
the decode error, for every accumulator state; consequently the whole run
fails with that error and the trace of built transactions is empty — no
instruction is ever submitted and no malformed account is silently
skipped. -/
theorem decode_failure_fails_scan (owner : String) (skip_usdc : Bool)
    (accounts : List (String × Option TokenAccountData))
    (hbad : ∃ pubkey, (pubkey, (none : Option TokenAccountData)) ∈ accounts) :
    (∀ instructions n, scanLoop owner skip_usdc accounts instructions n =
      Except.error "Failed to unpack token account data") ∧
    (∀ env max_instructions compute_unit_price compute_unit_limit,
      burn_and_close_all_tokens env owner skip_usdc max_instructions
          compute_unit_price compute_unit_limit (Except.ok accounts) =
        some (Except.error "Failed to unpack token account data", [])) := by
  obtain ⟨pk, hpk⟩ := hbad
  have key : ∀ (accs : List (String × Option TokenAccountData)),
      (pk, (none : Option TokenAccountData)) ∈ accs →
      ∀ instructions n, scanLoop owner skip_usdc accs instructions n =
        Except.error "Failed to unpack token account data" := by
    intro accs
    induction accs with
    | nil => intro h; cases h
    | cons hd tl ih =>
      intro hmem instructions n
      obtain ⟨pkh, dh⟩ := hd
      match dh with
      | none => simp only [scanLoop]
      | some d =>
        have htl : (pk, (none : Option TokenAccountData)) ∈ tl := by
          rcases List.mem_cons.mp hmem with h | h
          · simp [Prod.ext_iff] at h
          · exact h
        simp only [scanLoop]
        split
        · exact ih htl instructions n
        · exact ih htl _ _
  have hscan := key accounts hpk
  refine ⟨hscan, ?_⟩
  intro env M cup cul
  have hne : accounts.isEmpty = false := by
    cases accounts with
    | nil => cases hpk
    | cons hd tl => rfl
  simp only [burn_and_close_all_tokens, hne, Bool.false_eq_true, if_false,
    hscan [] 0]

/-- Witness for C7: a single account whose decode fails. -/
theorem decode_failure_fails_scan_witness :
    (∀ instructions n,
      scanLoop "W" true [("A", (none : Option TokenAccountData))] instructions n =
        Except.error "Failed to unpack token account data") ∧
    (∀ env max_instructions compute_unit_price compute_unit_limit,
      burn_and_close_all_tokens env "W" true max_instructions
          compute_unit_price compute_unit_limit
          (Except.ok [("A", (none : Option TokenAccountData))]) =
        some (Except.error "Failed to unpack token account data", [])) :=
  decode_failure_fails_scan "W" true [("A", none)] ⟨"A", by simp⟩

/-- C10: if the fetch returns a non-empty account list but every account is
a USDC account and skip_usdc is true, the scan yields an empty instruction
list and the run returns success with an empty transaction trace — the same
value for every RPC environment, so no blockhash is fetched and nothing is
built, simulated or submitted. -/
theorem all_filtered_success_zero_batches (env : RpcEnv) (owner : String)
    (max_instructions compute_unit_price compute_unit_limit : Nat)
    (accounts : List (String × Option TokenAccountData))
    (hne : accounts ≠ [])
    (hall : ∀ x ∈ accounts, ∃ d, x.2 = some d ∧ d.mint = USDC_MINT) :
    burn_and_close_all_tokens env owner true max_instructions
        compute_unit_price compute_unit_limit (Except.ok accounts) =
      some (Except.ok (), []) := by
  have key : ∀ (accs : List (String × Option TokenAccountData)),
      (∀ x ∈ accs, ∃ d, x.2 = some d ∧ d.mint = USDC_MINT) →
      ∀ instructions n, scanLoop owner true accs instructions n =
        Except.ok (instructions, n) := by
    intro accs
    induction accs with
    | nil => intro _ instructions n; simp only [scanLoop]
    | cons hd tl ih =>
      intro h instructions n
      obtain ⟨pkh, dh⟩ := hd
      obtain ⟨d, hd2, hmint⟩ := h (pkh, dh) (List.mem_cons_self _ _)
      simp only at hd2
      subst hd2
      simp only [scanLoop, hmint, Bool.true_and, beq_self_eq_true, if_true]
      exact ih (fun x hx => h x (List.mem_cons_of_mem _ hx)) instructions n
  have hempty : accounts.isEmpty = false := by
    cases accounts with
    | nil => exact absurd rfl hne
    | cons hd tl => rfl
  simp only [burn_and_close_all_tokens, hempty, Bool.false_eq_true, if_false,
    key accounts hall [] 0, List.isEmpty_nil, if_true]

/-- Witness for C10: a single USDC account with a positive balance, under an
arbitrary concrete environment. -/
theorem all_filtered_success_zero_batches_witness :
    burn_and_close_all_tokens
        ⟨fun _ => Except.ok 0, fun _ => Except.ok none, fun _ => Except.ok "s"⟩
        "W" true 22 220000 350000
        (Except.ok [("A", some ⟨USDC_MINT, 3⟩)]) =
      some (Except.ok (), []) :=
  all_filtered_success_zero_batches _ "W" 22 220000 350000
    [("A", some ⟨USDC_MINT, 3⟩)] (by simp)
    (by
      intro x hx
      rw [List.mem_singleton] at hx
      subst hx
      exact ⟨⟨USDC_MINT, 3⟩, rfl, rfl⟩)

/-- C3: if the simulation call succeeds but reports an on-chain error, the
batch processing returns that fatal error whatever the submission oracle
would have answered — the submission step cannot influence the outcome, so
the batch is aborted before any submission; if the simulation call itself
fails, the failure is only logged and the batch is still submitted: the
function's result is exactly the submission outcome. -/
theorem simulation_error_fatal_call_failure_advisory
    (owner : String) (batch : List Instr) (cup cul bh : Nat)
    (e simFailure sendErr signature : String) :
    (∀ sendRes,
      (process_instruction_batch owner batch cup cul (Except.ok bh)
          (Except.ok (some e)) sendRes).2 =
        Except.error ("Transaction simulation failed: " ++ e)) ∧
    (process_instruction_batch owner batch cup cul (Except.ok bh)
        (Except.error simFailure) (Except.ok signature)).2 =
      Except.ok signature ∧
    (process_instruction_batch owner batch cup cul (Except.ok bh)
        (Except.error simFailure) (Except.error sendErr)).2 =
      Except.error "Failed to send and confirm transaction" :=
  ⟨fun _ => rfl, rfl, rfl⟩

/-- C8: whenever process_instruction_batch builds a transaction for a
batch, that transaction's instruction list is exactly the
compute-unit-price directive followed by the compute-unit-limit directive
followed by the batch's instructions in order, with the operator key as
fee payer. The directives are built inside the call, so every batch's
transaction gets its own freshly prepended pair. -/
theorem transaction_prepends_compute_budget
    (owner : String) (batch : List Instr) (cup cul : Nat)
    (blockhashRes : Except String Nat)
    (simulateRes : Except String (Option String))
    (sendRes : Except String String) (t : BuiltTransaction)
    (hbuilt : (process_instruction_batch owner batch cup cul blockhashRes
        simulateRes sendRes).1 = some t) :
    t.instructions =
      Instr.setComputeUnitPrice cup :: Instr.setComputeUnitLimit cul :: batch ∧
    t.feePayer = owner := by
  cases blockhashRes with
  | error e => simp [process_instruction_batch] at hbuilt
  | ok bh =>
    have ht : (process_instruction_batch owner batch cup cul (Except.ok bh)
        simulateRes sendRes).1 = some (buildTransaction owner batch cup cul bh) := by
      cases simulateRes with
      | error se => cases sendRes <;> rfl
      | ok o =>
        cases o with
        | none => cases sendRes <;> rfl
        | some e => rfl
    rw [ht] at hbuilt
    obtain rfl : buildTransaction owner batch cup cul bh = t :=
      Option.some.inj hbuilt
    exact ⟨rfl, rfl⟩

/-- Witness for C8: a concrete call whose blockhash fetch succeeded. -/
theorem transaction_prepends_compute_budget_witness :
    (buildTransaction "W" [Instr.closeAccount "A" "W" "W"] 220000 350000 5).instructions =
      Instr.setComputeUnitPrice 220000 :: Instr.setComputeUnitLimit 350000 ::
        [Instr.closeAccount "A" "W" "W"] ∧
    (buildTransaction "W" [Instr.closeAccount "A" "W" "W"] 220000 350000 5).feePayer =
      "W" :=
  transaction_prepends_compute_budget "W" [Instr.closeAccount "A" "W" "W"]
    220000 350000 (Except.ok 5) (Except.ok none) (Except.ok "sig")
    (buildTransaction "W" [Instr.closeAccount "A" "W" "W"] 220000 350000 5) rfl

/-- Sequential processing of an already-chunked batch list: the reference
form of the submission loop. Each batch is processed in order with its
batch number; the first failure stops the run; the trace accumulates the
(batch index, built transaction) pairs. -/
def processChunks (env : RpcEnv) (owner : String)
    (compute_unit_price compute_unit_limit : Nat) :
    List (List Instr) → Nat → Except String Unit × List (Nat × BuiltTransaction)
  | [], _ => (Except.ok (), [])
  | b :: bs, i =>
    match process_instruction_batch owner b compute_unit_price compute_unit_limit
        (env.getLatestBlockhash i) (env.simulateTransaction i)
        (env.sendAndConfirm i) with
    | (txOpt, Except.error msg) =>
        (Except.error msg, (txOpt.map (fun t => (i, t))).toList)
    | (txOpt, Except.ok _) =>
        let r := processChunks env owner compute_unit_price compute_unit_limit bs (i + 1)
        (r.1, (txOpt.map (fun t => (i, t))).toList ++ r.2)

lemma runLoop_stop (env : RpcEnv) (owner : String) (l : List Instr)
    (M cup cul fuel p i : Nat) (h : ¬ p < l.length) :
    runLoop env owner l M cup cul fuel p i = some (Except.ok (), []) := by
  rw [runLoop.eq_def]
  simp [h]

lemma runLoop_step (env : RpcEnv) (owner : String) (l : List Instr)
    (M cup cul f p i : Nat) (h : p < l.length) :
    runLoop env owner l M cup cul (f + 1) p i =
      match process_instruction_batch owner
          (listSlice l p (end_index p M l.length)) cup cul
          (env.getLatestBlockhash i) (env.simulateTransaction i)
          (env.sendAndConfirm i) with
      | (txOpt, Except.error msg) =>
          some (Except.error msg, (txOpt.map (fun t => (i, t))).toList)
      | (txOpt, Except.ok _) =>
          (runLoop env owner l M cup cul f (end_index p M l.length) (i + 1)).map
            (fun r => (r.1, (txOpt.map (fun t => (i, t))).toList ++ r.2)) := by
  rw [runLoop.eq_def]
  simp [h]

lemma runLoop_eq_processChunks (env : RpcEnv) (owner : String) (l : List Instr)
    (m cup cul : Nat) :
    ∀ fuel p i, p ≤ l.length → l.length - p ≤ fuel →
      runLoop env owner l (m + 1) cup cul fuel p i =
        some (processChunks env owner cup cul (chunksPos m (l.drop p)) i) := by
  intro fuel
  induction fuel with
  | zero =>
    intro p i hp hf
    have hpe : p = l.length := by omega
    rw [runLoop_stop env owner l _ cup cul _ p i (by omega), hpe,
      List.drop_length, chunksPos_nil]
    rfl
  | succ f ih =>
    intro p i hp hf
    by_cases h : p < l.length
    · have he1 : p < end_index p (m + 1) l.length := by unfold end_index; omega
      have he2 : end_index p (m + 1) l.length ≤ l.length := by unfold end_index; omega
      have hne : l.drop p ≠ [] :=
        List.ne_nil_of_length_pos (by rw [List.length_drop]; omega)
      rw [runLoop_step env owner l _ cup cul f p i h,
        listSlice_end_index l p m hp, chunksPos_eq_of_ne_nil m (l.drop p) hne]
      simp only [processChunks]
      rcases hres : process_instruction_batch owner ((l.drop p).take (m + 1))
        cup cul (env.getLatestBlockhash i) (env.simulateTransaction i)
        (env.sendAndConfirm i) with ⟨txOpt, out⟩
      cases out with
      | error msg => rfl
      | ok s =>
        rw [ih (end_index p (m + 1) l.length) (i + 1) he2 (by omega),
          drop_end_index]
        rfl
    · rw [runLoop_stop env owner l _ cup cul _ p i h]
      have hpe : p = l.length := by omega
      rw [hpe, List.drop_length, chunksPos_nil]
      rfl

lemma processChunks_first_failure (env : RpcEnv) (owner : String)
    (cup cul : Nat) :
    ∀ (bs1 : List (List Instr)) (b : List Instr) (bs2 : List (List Instr))
      (i : Nat) (msg : String),
      (∀ j, j < bs1.length →
        (batchOutcome env owner cup cul (i + j) (bs1.getD j [])).isOk = true) →
      batchOutcome env owner cup cul (i + bs1.length) b = Except.error msg →
      ∃ tr, processChunks env owner cup cul (bs1 ++ b :: bs2) i =
          (Except.error msg, tr) ∧ ∀ x ∈ tr, x.1 ≤ i + bs1.length := by
  intro bs1
  induction bs1 with
  | nil =>
    intro b bs2 i msg hok hfail
    simp only [List.length_nil, Nat.add_zero] at hfail
    unfold batchOutcome at hfail
    simp only [List.nil_append, processChunks]
    rcases hres : process_instruction_batch owner b cup cul
      (env.getLatestBlockhash i) (env.simulateTransaction i)
      (env.sendAndConfirm i) with ⟨txOpt, out⟩
    rw [hres] at hfail
    simp only at hfail
    subst hfail
    refine ⟨(txOpt.map (fun t => (i, t))).toList, rfl, ?_⟩
    intro x hx
    cases txOpt with
    | none => cases hx
    | some t =>
      simp only [Option.map_some', Option.toList_some, List.mem_singleton] at hx
      subst hx
      simp
  | cons b1 bs1 ih =>
    intro b bs2 i msg hok hfail
    have h0 : (batchOutcome env owner cup cul i b1).isOk = true := by
      have h := hok 0 (by simp)
      simpa using h
    unfold batchOutcome at h0
    simp only [List.cons_append, processChunks]
    rcases hres : process_instruction_batch owner b1 cup cul
      (env.getLatestBlockhash i) (env.simulateTransaction i)
      (env.sendAndConfirm i) with ⟨txOpt, out⟩
    rw [hres] at h0
    cases out with
    | error m2 => simp [Except.isOk, Except.toBool] at h0
    | ok s =>
      have hok1 : ∀ j, j < bs1.length →
          (batchOutcome env owner cup cul (i + 1 + j) (bs1.getD j [])).isOk = true := by
        intro j hj
        have h := hok (j + 1) (by simp; omega)
        have harith : i + (j + 1) = i + 1 + j := by omega
        rw [harith] at h
        simpa using h
      have hfail1 : batchOutcome env owner cup cul (i + 1 + bs1.length) b =
          Except.error msg := by
        have harith : i + 1 + bs1.length = i + (b1 :: bs1).length := by
          simp
          omega
        rw [harith]
        exact hfail
      obtain ⟨tr, htr, hbound⟩ := ih b bs2 (i + 1) msg hok1 hfail1
      refine ⟨(txOpt.map (fun t => (i, t))).toList ++ tr, ?_, ?_⟩
      · simp only [List.append_eq, htr]
      · intro x hx
        rcases List.mem_append.mp hx with hx | hx
        · cases txOpt with
          | none => cases hx
          | some t =>
            simp only [Option.map_some', Option.toList_some,
              List.mem_singleton] at hx
            subst hx
            show i ≤ i + (b1 :: bs1).length
            simp only [List.length_cons]
            omega
        · have hb := hbound x hx
          simp only [List.length_cons]
          omega

/-- C4: if every batch before batch number k succeeds and the processing of
batch k (the k-th chunk of the instruction list) fails at any of its steps
— blockhash fetch, reported simulation error, or send/confirm failure —
then the whole run returns that error, the trace of built transactions
contains nothing for any batch after k (every traced batch index is ≤ k),
and main's exit status is non-zero. -/
theorem failed_batch_halts_run (env : RpcEnv) (owner : String)
    (l : List Instr) (m cup cul : Nat) (bs1 : List (List Instr))
    (b : List Instr) (bs2 : List (List Instr)) (msg : String)
    (hsplit : chunksPos m l = bs1 ++ b :: bs2)
    (hok : ∀ j, j < bs1.length →
      (batchOutcome env owner cup cul j (bs1.getD j [])).isOk = true)
    (hfail : batchOutcome env owner cup cul bs1.length b = Except.error msg) :
    ∃ tr, runLoop env owner l (m + 1) cup cul l.length 0 0 =
        some (Except.error msg, tr) ∧
      (∀ x ∈ tr, x.1 ≤ bs1.length) ∧
      exitCode (Except.error msg) = 1 := by
  have hrun := runLoop_eq_processChunks env owner l m cup cul l.length 0 0
    (Nat.zero_le _) (by omega)
  rw [List.drop_zero, hsplit] at hrun
  obtain ⟨tr, htr, hbound⟩ := processChunks_first_failure env owner cup cul
    bs1 b bs2 0 msg (by simpa using hok) (by simpa using hfail)
  refine ⟨tr, ?_, ?_, rfl⟩
  · rw [hrun, htr]
  · intro x hx
    have := hbound x hx
    omega

/-- Witness for C4: five instructions, max_instructions = 2 (three batches);
the simulation oracle reports an on-chain error for batch number 1, so the
run aborts with batch 2 never appearing in the trace. -/
theorem failed_batch_halts_run_witness :
    ∃ tr,
      runLoop
        ⟨fun _ => Except.ok 7,
          fun i => if i = 1 then Except.ok (some "custom error") else Except.ok none,
          fun _ => Except.ok "sig"⟩
        "W"
        [Instr.setComputeUnitPrice 0, Instr.setComputeUnitPrice 1,
          Instr.setComputeUnitPrice 2, Instr.setComputeUnitPrice 3,
          Instr.setComputeUnitPrice 4] 2 9 9 5 0 0 =
        some (Except.error "Transaction simulation failed: custom error", tr) ∧
      (∀ x ∈ tr, x.1 ≤ 1) ∧
      exitCode (Except.error "Transaction simulation failed: custom error") = 1 :=
  failed_batch_halts_run
    ⟨fun _ => Except.ok 7,
      fun i => if i = 1 then Except.ok (some "custom error") else Except.ok none,
      fun _ => Except.ok "sig"⟩
    "W"
    [Instr.setComputeUnitPrice 0, Instr.setComputeUnitPrice 1,
      Instr.setComputeUnitPrice 2, Instr.setComputeUnitPrice 3,
      Instr.setComputeUnitPrice 4]
    1 9 9
    [[Instr.setComputeUnitPrice 0, Instr.setComputeUnitPrice 1]]
    [Instr.setComputeUnitPrice 2, Instr.setComputeUnitPrice 3]
    [[Instr.setComputeUnitPrice 4]]
    "Transaction simulation failed: custom error"
    (by simp [chunksPos_cons, chunksPos_nil])
    (by
      intro j hj
      simp only [List.length_cons, List.length_nil] at hj
      have hj0 : j = 0 := by omega
      subst hj0
      rfl)
    rfl
